import Mathlib

/-!
Verification development for the matrix shell-bridge bot (`src/main.py`).

Shallow embedding conventions:
* Python `bytes` values are `List Nat` (each entry a byte value 0..255).
* Python `str` values are `List Char`.
* The pty master file object's side effects (`pin.write` / `pin.flush`) are
  reified as a list of `Effect` values.
* The incremental UTF-8 decoder (`codecs.getincrementaldecoder('utf8')` with
  `errors='replace'`) is modelled by `decDecode` over an explicit state
  (`IncDec`) holding the undecoded trailing bytes.

All definitions are structurally recursive so that concrete inputs evaluate
inside the kernel (`decide` / `rfl`).
-/

/-- `MAX_STDOUT_PER_MSG = 1024 * 16` (main.py line 18). -/
def MAX_STDOUT_PER_MSG : Nat := 1024 * 16

/-- `sum(len(s) for s in buf)` (main.py line 109). -/
def sumLen (buf : List (List Nat)) : Nat := (buf.map List.length).sum

/-- `b''.join(bs)`: concatenation of a list of byte strings. -/
def bjoin : List (List Nat) → List Nat
  | [] => []
  | c :: r => c ++ bjoin r

/-- The greedy chunk-consumption loop of `stdout_to_messages`
(main.py lines 111-115):
`while buf and len(buf[0]) + bytes_to_send <= MAX_STDOUT_PER_MSG:` popping
chunks from the front.  Returns `(stdout_to_send, remaining buf)`; the
argument `n` is the running `bytes_to_send`. -/
def takeFront : List (List Nat) → Nat → List (List Nat) × List (List Nat)
  | [], _ => ([], [])
  | c :: rest, n =>
    if c.length + n ≤ MAX_STDOUT_PER_MSG then
      ((c :: (takeFront rest (n + c.length)).1), (takeFront rest (n + c.length)).2)
    else ([], c :: rest)

/-- `total_stdout.rfind(b'\n')` (main.py line 118): index of the last newline
byte, `none` when Python returns `-1`. -/
def rfindNL : List Nat → Option Nat
  | [] => none
  | b :: rest =>
    match rfindNL rest with
    | some i => some (i + 1)
    | none => if b = 10 then some 0 else none

/-- U+FFFD, produced by the `errors='replace'` handler. -/
def replacementChar : Char := Char.ofNat 0xFFFD

/-- Continuation byte test `0x80 ≤ b ≤ 0xBF`. -/
def utf8Cont (b : Nat) : Bool := decide (0x80 ≤ b ∧ b ≤ 0xBF)

/-- Lower bound of the first continuation byte after a three-byte lead. -/
def cont3lo (b : Nat) : Nat := if b = 0xE0 then 0xA0 else 0x80

/-- Upper bound of the first continuation byte after a three-byte lead
(excludes surrogates after 0xED). -/
def cont3hi (b : Nat) : Nat := if b = 0xED then 0x9F else 0xBF

/-- Lower bound of the first continuation byte after a four-byte lead. -/
def cont4lo (b : Nat) : Nat := if b = 0xF0 then 0x90 else 0x80

/-- Upper bound of the first continuation byte after a four-byte lead. -/
def cont4hi (b : Nat) : Nat := if b = 0xF4 then 0x8F else 0xBF

/-- One pass of UTF-8 decoding with `errors='replace'`, following CPython's
decoder: each maximal subpart of an ill-formed sequence becomes one
U+FFFD, and a valid-so-far incomplete sequence at the end of the input is
returned as the second component (the bytes the incremental decoder
retains). -/
def utf8Run : List Nat → List Char × List Nat
  | [] => ([], [])
  | b :: rest =>
    if b < 0x80 then
      ((Char.ofNat b :: (utf8Run rest).1), (utf8Run rest).2)
    else if 0xC2 ≤ b ∧ b ≤ 0xDF then
      match rest with
      | [] => ([], [b])
      | c1 :: rest1 =>
        if utf8Cont c1 then
          ((Char.ofNat ((b - 0xC0) * 0x40 + (c1 - 0x80)) :: (utf8Run rest1).1),
            (utf8Run rest1).2)
        else
          ((replacementChar :: (utf8Run (c1 :: rest1)).1), (utf8Run (c1 :: rest1)).2)
    else if 0xE0 ≤ b ∧ b ≤ 0xEF then
      match rest with
      | [] => ([], [b])
      | c1 :: rest1 =>
        if cont3lo b ≤ c1 ∧ c1 ≤ cont3hi b then
          match rest1 with
          | [] => ([], [b, c1])
          | c2 :: rest2 =>
            if utf8Cont c2 then
              ((Char.ofNat (((b - 0xE0) * 0x40 + (c1 - 0x80)) * 0x40 + (c2 - 0x80)) ::
                  (utf8Run rest2).1), (utf8Run rest2).2)
            else
              ((replacementChar :: (utf8Run (c2 :: rest2)).1), (utf8Run (c2 :: rest2)).2)
        else
          ((replacementChar :: (utf8Run (c1 :: rest1)).1), (utf8Run (c1 :: rest1)).2)
    else if 0xF0 ≤ b ∧ b ≤ 0xF4 then
      match rest with
      | [] => ([], [b])
      | c1 :: rest1 =>
        if cont4lo b ≤ c1 ∧ c1 ≤ cont4hi b then
          match rest1 with
          | [] => ([], [b, c1])
          | c2 :: rest2 =>
            if utf8Cont c2 then
              match rest2 with
              | [] => ([], [b, c1, c2])
              | c3 :: rest3 =>
                if utf8Cont c3 then
                  ((Char.ofNat ((((b - 0xF0) * 0x40 + (c1 - 0x80)) * 0x40 + (c2 - 0x80))
                      * 0x40 + (c3 - 0x80)) :: (utf8Run rest3).1), (utf8Run rest3).2)
                else
                  ((replacementChar :: (utf8Run (c3 :: rest3)).1), (utf8Run (c3 :: rest3)).2)
            else
              ((replacementChar :: (utf8Run (c2 :: rest2)).1), (utf8Run (c2 :: rest2)).2)
        else
          ((replacementChar :: (utf8Run (c1 :: rest1)).1), (utf8Run (c1 :: rest1)).2)
    else
      ((replacementChar :: (utf8Run rest).1), (utf8Run rest).2)

/-- State of `codecs.getincrementaldecoder('utf8')(errors='replace')`: the
bytes of a not-yet-complete sequence retained between `decode` calls. -/
structure IncDec where
  pending : List Nat
deriving DecidableEq

/-- `decoder.decode(input, final)`.  With `final = False` (the default, and
the only form `main.py` ever uses) an incomplete trailing sequence is
retained in the state; with `final = True` it is replaced by U+FFFD. -/
def decDecode (st : IncDec) (input : List Nat) (final : Bool) : List Char × IncDec :=
  if final then
    (((utf8Run (st.pending ++ input)).1 ++
        (if (utf8Run (st.pending ++ input)).2 = [] then [] else [replacementChar])),
      ⟨[]⟩)
  else ((utf8Run (st.pending ++ input)).1, ⟨(utf8Run (st.pending ++ input)).2⟩)

/-- `stdout_to_messages(buf, incremental_decoder, flush)` (main.py lines
86-125).  Returns `(messages, new buf, new decoder state)`; the source
mutates `buf` in place and we return its final value.  Every `decode` call
in the source uses the default `final=False`. -/
def stdout_to_messages (buf : List (List Nat)) (dec : IncDec) (flush : Bool) :
    List (List Char) × List (List Nat) × IncDec :=
  if flush then
    ([(decDecode dec (bjoin buf) false).1], [], (decDecode dec (bjoin buf) false).2)
  else if sumLen buf > MAX_STDOUT_PER_MSG then
    match rfindNL (bjoin (takeFront buf 0).1) with
    | some i =>
      ([(decDecode dec ((bjoin (takeFront buf 0).1).take i) false).1],
        (takeFront buf 0).2 ++ [(bjoin (takeFront buf 0).1).drop (i + 1)],
        (decDecode dec ((bjoin (takeFront buf 0).1).take i) false).2)
    | none =>
      ([(decDecode dec (bjoin (takeFront buf 0).1) false).1],
        (takeFront buf 0).2,
        (decDecode dec (bjoin (takeFront buf 0).1) false).2)
  else ([], buf, dec)

/-- Byte-level factoring of `stdout_to_messages`: the byte strings the
source hands to `incremental_decoder.decode`, and the final value of `buf`.
Same branch structure as `stdout_to_messages`. -/
def stdout_to_messages_bytes (buf : List (List Nat)) (flush : Bool) :
    List (List Nat) × List (List Nat) :=
  if flush then ([bjoin buf], [])
  else if sumLen buf > MAX_STDOUT_PER_MSG then
    match rfindNL (bjoin (takeFront buf 0).1) with
    | some i =>
      ([(bjoin (takeFront buf 0).1).take i],
        (takeFront buf 0).2 ++ [(bjoin (takeFront buf 0).1).drop (i + 1)])
    | none => ([bjoin (takeFront buf 0).1], (takeFront buf 0).2)
  else ([], buf)

/-- State carried across iterations of `shell_stdout_handler`'s read loop:
`buf` and the incremental decoder. -/
structure RelayState where
  buf : List (List Nat)
  dec : IncDec
deriving DecidableEq

/-- Python 3 `==` between a `bytes` value and a `str` value is always
`False` (cross-type equality never holds).  This models the test
`shell_stdout == ''` on main.py line 145, where `shell_stdout : bytes`
(the result of `os.read`) is compared against the *string* `''`. -/
def pyEqBytesStr (_b : List Nat) (_s : List Char) : Bool := false

/-- One iteration of the `while not stop.is_set()` loop of
`shell_stdout_handler` (main.py lines 141-156).  `readable` is the result
of the `select` poll, `readResult` the bytes returned by `os.read` when
readable, `roomsAvail` whether `client.rooms` is non-empty.  Returns `none`
when the iteration executes `return` (ending the relay), otherwise the new
state and the text messages passed on to the rooms. -/
def relayIter (st : RelayState) (readable : Bool) (readResult : List Nat)
    (roomsAvail : Bool) : Option (RelayState × List (List Char)) :=
  if readable && pyEqBytesStr readResult [] then none
  else
    let buf1 := if readable then st.buf ++ [readResult] else st.buf
    if !buf1.isEmpty && roomsAvail then
      some (⟨(stdout_to_messages buf1 st.dec (!readable)).2.1,
             (stdout_to_messages buf1 st.dec (!readable)).2.2⟩,
            (stdout_to_messages buf1 st.dec (!readable)).1)
    else some (⟨buf1, st.dec⟩, [])

/-- ASCII lower-casing of one character, modelling `re.I` matching for the
ASCII-only patterns of main.py (lines 16-17). -/
def lowerCh (c : Char) : Char :=
  if 65 ≤ c.toNat ∧ c.toNat ≤ 90 then Char.ofNat (c.toNat + 32) else c

/-- `re.match(pat, msg, flags=re.I)` for a pattern that is a literal:
case-insensitive prefix match (Python `re.match` anchors only the start). -/
def ciStartsWith (pat msg : List Char) : Bool :=
  (pat.map lowerCh).isPrefixOf (msg.map lowerCh)

/-- The four alternatives of `CTRLC_CMD_REGEX = r'!ctrl\+c|!ctrlc|!shell
ctrlc|!shell ctrl\+c'` (main.py line 17); each is a literal. -/
def CTRLC_SPELLINGS : List (List Char) :=
  ["!ctrl+c".toList, "!ctrlc".toList, "!shell ctrlc".toList, "!shell ctrl+c".toList]

/-- `re.match(CTRLC_CMD_REGEX, message, flags=re.I)` is truthy iff some
alternative matches at the start of the message. -/
def ctrlcMatch (msg : List Char) : Bool :=
  CTRLC_SPELLINGS.any (fun p => ciStartsWith p msg)

/-- The literal part of `SHELL_CMD_REGEX = r'!shell (.*)'` (main.py line 16). -/
def shellCmdLit : List Char := "!shell ".toList

/-- `re.match(SHELL_CMD_REGEX, message, flags=re.I)`: requires the literal
prefix `!shell ` (case-insensitively) and captures `(.*)` — the following
characters up to the first newline (`.` does not match `\n`), greedily. -/
def shellMatch (msg : List Char) : Option (List Char) :=
  if ciStartsWith shellCmdLit msg then
    some ((msg.drop shellCmdLit.length).takeWhile (fun c => !(c == '\n')))
  else none

/-- The byte written for ctrl-c: `'\x03'` (main.py line 57). -/
def interruptCh : Char := Char.ofNat 3

/-- Side effects `on_message` can perform on the pty master file object. -/
inductive Effect where
  | write (s : List Char)
  | flush
deriving DecidableEq

/-- A matrix `m.room.message` event as `on_message` inspects it:
`event['sender']`, optional `event['content']['msgtype']` (absent =
`none`), and `event['content']['body']`. -/
structure MessageEvent where
  sender : List Char
  msgtype : Option (List Char)
  body : List Char
deriving DecidableEq

/-- The string `'m.text'`. -/
def mtextL : List Char := "m.text".toList

/-- `on_message(event, pin, allowed_users)` (main.py lines 38-66), with the
writes/flushes to `pin` reified in order. -/
def on_message (e : MessageEvent) (allowed : List (List Char)) : List Effect :=
  if e.sender ∈ allowed ∧ e.msgtype = some mtextL then
    if ctrlcMatch e.body then [Effect.write [interruptCh], Effect.flush]
    else
      match shellMatch e.body with
      | some cmd => [Effect.write cmd, Effect.write ['\n'], Effect.flush]
      | none => []
  else []

/-- The escape character `'\x1b'`. -/
def escCh : Char := Char.ofNat 27

/-- `\w` of the escape-code regex (main.py line 23), over the ASCII range
(the patterns themselves are ASCII; the inputs the claims evaluate are
ASCII as well). -/
def isWordCh (c : Char) : Bool :=
  decide ((97 ≤ c.toNat ∧ c.toNat ≤ 122) ∨ (65 ≤ c.toNat ∧ c.toNat ≤ 90) ∨
    (48 ≤ c.toNat ∧ c.toNat ≤ 57) ∨ c.toNat = 95)

/-- `\d` over ASCII. -/
def isDigitCh (c : Char) : Bool := decide (48 ≤ c.toNat ∧ c.toNat ≤ 57)

/-- A character of the parameter class `[\d;]`. -/
def isParamCh (c : Char) : Bool := isDigitCh c || c == ';'

/-- Backtracking step for `([\d;]*)(\w)`: when the character after the
greedy parameter run is not a word character, the regex engine gives
characters back until the last digit of the run can serve as the `(\w)`;
returns the run's remainder after that digit. -/
def dropThroughLastDigit : List Char → Option (List Char)
  | [] => none
  | c :: rest =>
    match dropThroughLastDigit rest with
    | some r => some r
    | none => if isDigitCh c then some rest else none

/-- Matching `([\d;]*)(\w)` at the position after `\x1b\[?`: greedy
parameter run, then a word character, backtracking into the run if
needed.  Returns the text remaining after the match. -/
def escCore (m : List Char) : Option (List Char) :=
  match m.dropWhile isParamCh with
  | c :: rest2 =>
    if isWordCh c then some rest2
    else
      match dropThroughLastDigit (m.takeWhile isParamCh) with
      | some suf => some (suf ++ m.dropWhile isParamCh)
      | none => none
  | [] =>
    match dropThroughLastDigit (m.takeWhile isParamCh) with
    | some suf => some suf
    | none => none

/-- Matching the escape-code regex `\x1b\[?([\d;]*)(\w)` (main.py line 23)
at an escape character; `afterEsc` is the text following the `\x1b`.  The
optional `\[?` is tried greedily first; if the rest fails with the bracket
consumed, the engine retries without consuming it. -/
def escMatch (afterEsc : List Char) : Option (List Char) :=
  match afterEsc with
  | c :: m =>
    if c = '[' then
      match escCore m with
      | some r => some r
      | none => escCore (c :: m)
    else escCore (c :: m)
  | [] => escCore []

/-- `re.sub(escape regex, '', s)`: scan left to right, removing each match
and continuing after it (fuel-indexed so the recursion is structural; the
fuel `s.length` always suffices since every step consumes at least one
character). -/
def escSubF : Nat → List Char → List Char
  | _, [] => []
  | 0, l => l
  | Nat.succ n, c :: rest =>
    if c = escCh then
      match escMatch rest with
      | some rem => escSubF n rem
      | none => c :: escSubF n rest
    else c :: escSubF n rest

/-- `re.sub` with the escape-code regex (main.py line 34). -/
def escSub (l : List Char) : List Char := escSubF l.length l

/-- Whether the text starts with the literal `\x1b[K`. -/
def startsClear : List Char → Bool
  | a :: b :: c :: _ => a == escCh && b == '[' && c == 'K'
  | _ => false

/-- Whether `\x1b[K` occurs anywhere in the text. -/
def containsClear : List Char → Bool
  | [] => false
  | a :: rest => startsClear (a :: rest) || containsClear rest

/-- Effect of `re.sub(r'[^\n]*\x1b\[K', '', line)` on one newline-free
line: the regex removes everything from the line start through the *last*
`\x1b[K` (the greedy `[^\n]*` backtracks to the last occurrence; repeated
substitution eats any earlier ones), leaving only the suffix after it. -/
def lineClear : List Char → List Char
  | [] => []
  | a :: b :: c :: rest =>
    if a == escCh && b == '[' && c == 'K' then
      if containsClear rest then lineClear rest else rest
    else
      if containsClear (b :: c :: rest) then lineClear (b :: c :: rest)
      else a :: b :: c :: rest
  | l => l

/-- Split on `'\n'` (the separators are dropped; `n` newlines produce
`n + 1` lines). -/
def splitLines : List Char → List (List Char)
  | [] => [[]]
  | c :: rest =>
    if c = '\n' then [] :: splitLines rest
    else
      match splitLines rest with
      | l :: ls => (c :: l) :: ls
      | [] => [[c]]

/-- Re-join lines with `'\n'`. -/
def joinLines : List (List Char) → List Char
  | [] => []
  | [l] => l
  | l :: ls => l ++ '\n' :: joinLines ls

/-- `re.sub(r'[^\n]*\x1b\[K', '', s)` (main.py line 33): a match can never
contain `'\n'` (neither `[^\n]*` nor the literal can), so the substitution
acts independently on each line. -/
def handle_clears (s : List Char) : List Char :=
  joinLines ((splitLines s).map lineClear)

/-- `handle_escape_codes(shell_out)` (main.py lines 27-35): first the
clear-line substitution, then the escape-code substitution. -/
def handle_escape_codes (s : List Char) : List Char :=
  escSub (handle_clears s)

/-- The 16383-byte chunk `b'X' * 16383` used by the concrete over-threshold
buffers below. -/
def bigChunk : List Nat := List.replicate 16383 88

/-- A concrete buffer whose total size (16386 bytes) exceeds the threshold:
the chunks `b'a\nb'` and `bigChunk`.  The greedy front span consumes only
the first chunk (adding `bigChunk` would exceed the threshold). -/
def cbuf : List (List Nat) := [[97, 10, 98], bigChunk]

/-- Input on which the escape filter is not idempotent: `"\x1b\x1b[X[K"`. -/
def escIdemCex : List Char := [escCh, escCh, '[', 'X', '[', 'K']

/-- Input whose filtered output is escape-free: `"a\x1b[3mb"`. -/
def escIdemWitIn : List Char := "a\x1b[3mb".toList

/-- The sender identity used by concrete router scenarios. -/
def aliceId : List Char := "@a:hs".toList

/-- A sender identity outside the allow-list. -/
def eveId : List Char := "@evil:hs".toList

/-- A plain-text event whose body lacks the `!` prefix of the command form. -/
def noBangEvent : MessageEvent := ⟨aliceId, some mtextL, "shell echo hi".toList⟩

theorem bigChunk_length : bigChunk.length = 16383 := by
  rw [bigChunk]; exact List.length_replicate _ _

theorem ten_not_mem_bigChunk : (10 : Nat) ∉ bigChunk := by
  rw [bigChunk]
  intro hm
  exact absurd (List.mem_replicate.mp hm).2 (by decide)

theorem cbuf_sum : sumLen cbuf > MAX_STDOUT_PER_MSG := by
  rw [sumLen, cbuf]
  simp [bigChunk_length, MAX_STDOUT_PER_MSG]

theorem cbuf_takeFront : takeFront cbuf 0 = ([[97, 10, 98]], [bigChunk]) := by
  rw [cbuf]
  simp [takeFront, bigChunk_length, MAX_STDOUT_PER_MSG]

theorem cbuf_rfind : rfindNL (bjoin (takeFront cbuf 0).1) = some 1 := by
  rw [cbuf_takeFront]; decide

theorem cbuf_bytes_eval :
    stdout_to_messages_bytes cbuf false = ([[97]], [bigChunk, [98]]) := by
  rw [stdout_to_messages_bytes, if_neg Bool.false_ne_true, if_pos cbuf_sum, cbuf_rfind,
    cbuf_takeFront]
  simp [bjoin]

theorem startsClear_eq_false {a : Char} (rest : List Char) (ha : a ≠ escCh) :
    startsClear (a :: rest) = false := by
  match rest with
  | [] => rfl
  | [_] => rfl
  | b :: c :: t => simp [startsClear, beq_eq_false_iff_ne.mpr ha]

theorem containsClear_eq_false : ∀ {l : List Char}, escCh ∉ l → containsClear l = false := by
  intro l h
  induction l with
  | nil => rfl
  | cons a rest ih =>
    have ha : a ≠ escCh := by
      intro e; subst e; exact h (List.mem_cons_self _ _)
    have hr : escCh ∉ rest := fun m => h (List.mem_cons_of_mem _ m)
    simp [containsClear, startsClear_eq_false rest ha, ih hr]

theorem lineClear_id : ∀ {l : List Char}, containsClear l = false → lineClear l = l
  | [], _ => rfl
  | [_], _ => rfl
  | [_, _], _ => rfl
  | a :: b :: c :: rest, h => by
    have hsplit := h
    simp only [containsClear, Bool.or_eq_false_iff] at hsplit
    have h1 : startsClear (a :: b :: c :: rest) = false := hsplit.1
    have h2 : containsClear (b :: c :: rest) = false := by
      have := hsplit.2
      simpa [containsClear] using this
    rw [lineClear]
    rw [show (a == escCh && b == '[' && c == 'K') = false from h1, if_neg (by simp)]
    rw [if_neg (by simp [h2])]

theorem splitLines_ne_nil : ∀ (s : List Char), splitLines s ≠ [] := by
  intro s
  cases s with
  | nil => simp [splitLines]
  | cons c rest =>
    by_cases h : c = '\n'
    · simp [splitLines, h]
    · simp only [splitLines, if_neg h]
      cases hs : splitLines rest with
      | nil => simp
      | cons l ls => simp

theorem mem_splitLines : ∀ (s l : List Char), l ∈ splitLines s → ∀ c, c ∈ l → c ∈ s := by
  intro s
  induction s with
  | nil =>
    intro l hl c hc
    simp [splitLines] at hl
    subst hl
    simp at hc
  | cons a rest ih =>
    intro l hl c hc
    by_cases h : a = '\n'
    · rw [splitLines, if_pos h] at hl
      rcases List.mem_cons.mp hl with rfl | hl2
      · simp at hc
      · exact List.mem_cons_of_mem a (ih l hl2 c hc)
    · rw [splitLines, if_neg h] at hl
      cases hs : splitLines rest with
      | nil => exact absurd hs (splitLines_ne_nil rest)
      | cons m ms =>
        rw [hs] at hl
        simp only [] at hl
        rcases List.mem_cons.mp hl with rfl | hl2
        · rcases List.mem_cons.mp hc with rfl | hc2
          · exact List.mem_cons_self _ _
          · exact List.mem_cons_of_mem a (ih m (by rw [hs]; exact List.mem_cons_self m ms) c hc2)
        · exact List.mem_cons_of_mem a (ih l (by rw [hs]; exact List.mem_cons_of_mem m hl2) c hc)

theorem joinLines_splitLines : ∀ (s : List Char), joinLines (splitLines s) = s := by
  intro s
  induction s with
  | nil => rfl
  | cons a rest ih =>
    obtain ⟨m, ms, hm⟩ : ∃ m ms, splitLines rest = m :: ms := by
      cases hs : splitLines rest with
      | nil => exact absurd hs (splitLines_ne_nil rest)
      | cons m ms => exact ⟨m, ms, rfl⟩
    rw [hm] at ih
    by_cases h : a = '\n'
    · subst h
      rw [splitLines, if_pos rfl, hm]
      show '\n' :: joinLines (m :: ms) = '\n' :: rest
      rw [ih]
    · rw [splitLines, if_neg h, hm]
      cases ms with
      | nil =>
        show a :: m = a :: rest
        have : joinLines [m] = m := rfl
        rw [this] at ih
        rw [ih]
      | cons m2 ms2 =>
        show (a :: m) ++ '\n' :: joinLines (m2 :: ms2) = a :: rest
        have : joinLines (m :: m2 :: ms2) = m ++ '\n' :: joinLines (m2 :: ms2) := rfl
        rw [this] at ih
        simpa using ih

theorem handle_clears_id {s : List Char} (h : escCh ∉ s) : handle_clears s = s := by
  rw [handle_clears]
  have hline : ∀ l ∈ splitLines s, lineClear l = l := by
    intro l hl
    exact lineClear_id (containsClear_eq_false (fun hm => h (mem_splitLines s l hl escCh hm)))
  rw [List.map_congr_left hline]
  simp [joinLines_splitLines]

theorem escSubF_id : ∀ (n : Nat) {l : List Char}, escCh ∉ l → escSubF n l = l := by
  intro n
  induction n with
  | zero =>
    intro l _
    cases l <;> rfl
  | succ n ih =>
    intro l h
    cases l with
    | nil => rfl
    | cons c rest =>
      have hc : ¬ c = escCh := by
        intro e; subst e; exact h (List.mem_cons_self _ _)
      have hr : escCh ∉ rest := fun m => h (List.mem_cons_of_mem _ m)
      simp [escSubF, hc, ih hr]

theorem handle_escape_codes_id {s : List Char} (h : escCh ∉ s) :
    handle_escape_codes s = s := by
  rw [handle_escape_codes, escSub, handle_clears_id h]
  exact escSubF_id _ h

/-- C1: the claim says an empty read is treated as end-of-stream and the
relay loop returns.  In the code (main.py line 145) the test is
`shell_stdout == ''`, comparing the `bytes` result of `os.read` with a
`str`; in Python 3 that comparison is always `False`, so the iteration
never returns — not even when the read yields empty bytes — and instead
appends the empty chunk to the buffer.  This theorem evaluates the loop
iteration at the failing input: a readable channel whose read returned no
bytes does not terminate the relay. -/
theorem relay_continues_on_empty_read (st : RelayState) (readResult : List Nat)
    (roomsAvail : Bool) :
    relayIter st true readResult roomsAvail ≠ none := by
  rw [relayIter]
  simp only [pyEqBytesStr, Bool.and_false, Bool.false_eq_true, if_false]
  split <;> split <;> simp

/-- C2 counterexample: for the over-threshold buffer `cbuf` whose greedy
front span `b'a\nb'` contains a newline, the claim predicts the block
`b'a\n'` (newline included) and `[b'b']` as the sole retained chunk; the
code instead returns block `b'a'` (newline excluded) and retains
`[bigChunk, b'b']`. -/
theorem stdout_split_newline_cex :
    sumLen cbuf > MAX_STDOUT_PER_MSG ∧
    rfindNL (bjoin (takeFront cbuf 0).1) = some 1 ∧
    stdout_to_messages_bytes cbuf false ≠ ([[97, 10]], [[98]]) := by
  refine ⟨cbuf_sum, cbuf_rfind, ?_⟩
  rw [cbuf_bytes_eval]
  simp

/-- C2 (amended): when the buffer exceeds the threshold and the greedily
consumed front span contains a newline, `stdout_to_messages` emits the
span up to but **excluding** its last newline (the newline byte is
dropped), and **appends** the content after the newline as a new last
chunk, after any chunks the greedy loop did not consume (which always
exist in this branch), so the remainder is not the sole retained chunk. -/
theorem stdout_split_newline (buf : List (List Nat)) (i : Nat)
    (h1 : sumLen buf > MAX_STDOUT_PER_MSG)
    (h2 : rfindNL (bjoin (takeFront buf 0).1) = some i) :
    stdout_to_messages_bytes buf false =
      ([(bjoin (takeFront buf 0).1).take i],
        (takeFront buf 0).2 ++ [(bjoin (takeFront buf 0).1).drop (i + 1)]) := by
  rw [stdout_to_messages_bytes, if_neg Bool.false_ne_true, if_pos h1, h2]

/-- Witness for C2's amended theorem at the concrete buffer `cbuf`. -/
theorem stdout_split_newline_witness :
    sumLen cbuf > MAX_STDOUT_PER_MSG ∧
    rfindNL (bjoin (takeFront cbuf 0).1) = some 1 ∧
    stdout_to_messages_bytes cbuf false =
      ([(bjoin (takeFront cbuf 0).1).take 1],
        (takeFront cbuf 0).2 ++ [(bjoin (takeFront cbuf 0).1).drop (1 + 1)]) :=
  ⟨cbuf_sum, cbuf_rfind, stdout_split_newline cbuf 1 cbuf_sum cbuf_rfind⟩

/-- C3: claims emitted blocks followed by retained chunks reproduce the
buffer's bytes in order.  At the failing input `cbuf` the code (a) loses
the newline byte entirely (`total_stdout[:last_newline]` is emitted but
`total_stdout[last_newline+1:]` is retained, skipping index
`last_newline`), and (b) `buf.append(...)` puts the remainder **after**
the unconsumed chunks, reordering the stream.  The second conjunct shows
the retained buffer with the remainder `b'b'` misplaced after `bigChunk`. -/
theorem stdout_bytes_lost_reordered :
    bjoin ((stdout_to_messages_bytes cbuf false).1 ++ (stdout_to_messages_bytes cbuf false).2) ≠
      bjoin cbuf ∧
    (stdout_to_messages_bytes cbuf false).2 = [bigChunk, [98]] := by
  constructor
  · rw [cbuf_bytes_eval]
    intro h
    have h10 : (10 : Nat) ∈ bjoin cbuf := by simp [bjoin, cbuf]
    rw [← h] at h10
    simp [bjoin, ten_not_mem_bigChunk] at h10
  · rw [cbuf_bytes_eval]

/-- C4 counterexample: the escape filter is not idempotent.  On
`"\x1b\x1b[X[K"` the first application removes the sequence `\x1b[X`,
splicing the remaining characters into `"\x1b[K"`, which a second
application removes entirely. -/
theorem handle_escape_codes_not_idem :
    handle_escape_codes (handle_escape_codes escIdemCex) ≠ handle_escape_codes escIdemCex := by
  decide

/-- C4 (amended): `handle_escape_codes` is idempotent on every input whose
filtered output contains no escape character `\x1b`; in general removing
one escape sequence can splice surrounding characters into a new control
sequence, which only a second pass removes. -/
theorem handle_escape_codes_idem (x : List Char) (h : escCh ∉ handle_escape_codes x) :
    handle_escape_codes (handle_escape_codes x) = handle_escape_codes x :=
  handle_escape_codes_id h

/-- Witness for C4's amended theorem at `"a\x1b[3mb"` (filtered output
`"ab"`). -/
theorem handle_escape_codes_idem_witness :
    escCh ∉ handle_escape_codes escIdemWitIn ∧
    handle_escape_codes (handle_escape_codes escIdemWitIn) = handle_escape_codes escIdemWitIn :=
  ⟨by decide, handle_escape_codes_idem escIdemWitIn (by decide)⟩

/-- C5 counterexample: the claim says a body `"shell echo hi"` triggers the
write, but `SHELL_CMD_REGEX = r'!shell (.*)'` requires the `!` prefix:
the event is ignored, nothing is written. -/
theorem shell_without_bang_ignored :
    on_message noBangEvent [aliceId] = [] ∧
    on_message noBangEvent [aliceId] ≠
      [Effect.write "echo hi".toList, Effect.write ['\n'], Effect.flush] := by
  exact ⟨by decide, by decide⟩

/-- C5 (amended): a plain-text message with body `"!shell echo hi"` (the
command form carries the `!` prefix) from an allowed sender writes exactly
`echo hi` followed by a newline to the process input channel and flushes. -/
theorem shell_bang_writes_cmd (e : MessageEvent) (allowed : List (List Char))
    (h1 : e.sender ∈ allowed) (h2 : e.msgtype = some mtextL)
    (h3 : e.body = "!shell echo hi".toList) :
    on_message e allowed =
      [Effect.write "echo hi".toList, Effect.write ['\n'], Effect.flush] := by
  rw [on_message, if_pos ⟨h1, h2⟩, h3]
  decide

/-- Witness for C5's amended theorem. -/
theorem shell_bang_writes_cmd_witness :
    aliceId ∈ [aliceId] ∧
    on_message ⟨aliceId, some mtextL, "!shell echo hi".toList⟩ [aliceId] =
      [Effect.write "echo hi".toList, Effect.write ['\n'], Effect.flush] :=
  ⟨by decide, shell_bang_writes_cmd _ _ (by decide) rfl rfl⟩

/-- C6: any accepted ctrl-c spelling, matched case-insensitively at the
start of the body of a plain-text event from an allowed sender, makes
`on_message` write exactly the single byte 0x03 (and flush) — no trailing
newline; the control form is tested before the shell form, so this holds
even for bodies like `!shell ctrl+c` that the shell form would also
match. -/
theorem ctrlc_single_interrupt (e : MessageEvent) (allowed : List (List Char))
    (h1 : e.sender ∈ allowed) (h2 : e.msgtype = some mtextL)
    (h3 : ∃ p ∈ CTRLC_SPELLINGS, ciStartsWith p e.body = true) :
    on_message e allowed = [Effect.write [interruptCh], Effect.flush] := by
  have hm : ctrlcMatch e.body = true := List.any_eq_true.mpr h3
  rw [on_message, if_pos ⟨h1, h2⟩, if_pos hm]

/-- Witness for C6 with a mixed-case body that also matches the shell
form. -/
theorem ctrlc_single_interrupt_witness :
    on_message ⟨aliceId, some mtextL, "!ShElL cTrL+C now".toList⟩ [aliceId] =
      [Effect.write [interruptCh], Effect.flush] :=
  ctrlc_single_interrupt _ _ (by decide) rfl ⟨"!shell ctrl+c".toList, by decide, by decide⟩

/-- C7: the claim says that at end-of-stream the decoder's retained
trailing bytes are emitted as replacement text.  The code never calls
`decode` with `final=True`: the idle flush on a buffer holding the
truncated sequence `b'\xe2\x82'` emits only the empty string and leaves
the two bytes stranded in the decoder state, and no code path ever emits
them when the stream ends (the loop just stops).  The second conjunct
shows what a `final=True` decode — which the claim requires and the code
never performs — would have produced. -/
theorem utf8_tail_dropped_at_eos :
    relayIter ⟨[[226, 130]], ⟨[]⟩⟩ false [] true =
      some (⟨[], ⟨[226, 130]⟩⟩, [([] : List Char)]) ∧
    (decDecode ⟨[]⟩ [226, 130] true).1 = [replacementChar] := by
  exact ⟨by decide, by decide⟩

/-- C8: an event from a sender outside the allow-list, or whose content is
not a plain-text message, produces no effect at all. -/
theorem on_message_unauthorized_noop (e : MessageEvent) (allowed : List (List Char))
    (h : e.sender ∉ allowed ∨ e.msgtype ≠ some mtextL) :
    on_message e allowed = [] := by
  have hc : ¬ (e.sender ∈ allowed ∧ e.msgtype = some mtextL) := by
    rintro ⟨ha, hb⟩
    rcases h with h | h
    · exact h ha
    · exact h hb
  rw [on_message, if_neg hc]

/-- Witness for C8: a non-allowed sender sending `!ctrlc`. -/
theorem on_message_unauthorized_noop_witness :
    on_message ⟨eveId, some mtextL, "!ctrlc".toList⟩ [aliceId] = [] :=
  on_message_unauthorized_noop _ _ (Or.inl (by decide))

/-- C9: a single `stdout_to_messages` call returns exactly one block when
`flush` is true or the buffered total exceeds the threshold, and zero
blocks otherwise — never more than one. -/
theorem stdout_to_messages_block_count (buf : List (List Nat)) (dec : IncDec)
    (flush : Bool) :
    (stdout_to_messages buf dec flush).1.length =
      if flush = true ∨ sumLen buf > MAX_STDOUT_PER_MSG then 1 else 0 := by
  cases flush
  · by_cases hs : sumLen buf > MAX_STDOUT_PER_MSG
    · rw [stdout_to_messages, if_neg Bool.false_ne_true, if_pos hs]
      split <;> simp [hs]
    · rw [stdout_to_messages, if_neg Bool.false_ne_true, if_neg hs]
      simp [hs]
  · rw [stdout_to_messages, if_pos rfl]
    simp

/-- C10: matching is prefix-based: any body that begins with the spelling
`!ctrlc` — whatever follows — still triggers the single interrupt byte,
because `re.match` anchors only the start of the message. -/
theorem ctrlc_prefix_still_matches (rest : List Char) (e : MessageEvent)
    (allowed : List (List Char)) (h1 : e.sender ∈ allowed)
    (h2 : e.msgtype = some mtextL) (h3 : e.body = "!ctrlc".toList ++ rest) :
    on_message e allowed = [Effect.write [interruptCh], Effect.flush] := by
  have hpre : ciStartsWith "!ctrlc".toList e.body = true := by
    rw [h3, ciStartsWith, List.map_append, List.isPrefixOf_iff_prefix]
    exact List.prefix_append _ _
  have hm : ctrlcMatch e.body = true :=
    List.any_eq_true.mpr ⟨"!ctrlc".toList, by decide, hpre⟩
  rw [on_message, if_pos ⟨h1, h2⟩, if_pos hm]

/-- Witness for C10 at the body `"!ctrlc please"`. -/
theorem ctrlc_prefix_still_matches_witness :
    on_message ⟨aliceId, some mtextL, ("!ctrlc".toList ++ " please".toList)⟩ [aliceId] =
      [Effect.write [interruptCh], Effect.flush] :=
  ctrlc_prefix_still_matches " please".toList _ _ (by decide) rfl rfl
